import Mathlib

/-!
Verification of the inz-pipeline-js execution-orchestration engine against its
specification.  The TypeScript sources are shallowly embedded: each definition
below mirrors one source function (file and symbol named in its doc comment);
JS numbers used for times/delays are modelled as `Int`, JS `Map` as an
insertion-ordered association list, a thrown exception as the `.error` branch
of `Except` (or an explicit error field of a result structure), and an
`async` function's settled promise as its returned value.
-/

/-! ## Context and the resource map (src/src/SubPipeline.ts, class PipelineContext)

The JS `Map<string, any>` backing `dataRepository` is modelled as an
insertion-ordered association list with `Map.has` / `Map.get` / `Map.set` /
`Map.delete` counterparts.  Resource values are a type parameter `α`.
-/

/-- One entry of `context.pipelineErrors` (models/PipelineError): the recorded
message, the originating pipe's name and the attempt number when given.
(The wrapped `Error` object and the numeric wall-clock timestamp carry no
information the claims use and are omitted.) -/
structure PipelineErrorEntry where
  message : String
  pipeName : Option String := none
  attemptNumber : Option Nat := none
deriving Repr, DecidableEq

/-- `Map.has`. -/
def mapHas {α : Type} (m : List (String × α)) (k : String) : Bool :=
  m.any (fun p => p.1 == k)

/-- `Map.get` (`none` when absent). -/
def mapGet {α : Type} (m : List (String × α)) (k : String) : Option α :=
  (m.find? (fun p => p.1 == k)).map (fun p => p.2)

/-- `Map.set`: overwrite in place when the key is present, append otherwise
(JS Maps keep insertion order). -/
def mapSet {α : Type} (m : List (String × α)) (k : String) (v : α) : List (String × α) :=
  if mapHas m k then m.map (fun p => if p.1 == k then (k, v) else p)
  else m ++ [(k, v)]

/-- `Map.delete`: whether the key was present, and the map without it. -/
def mapDelete {α : Type} (m : List (String × α)) (k : String) : Bool × List (String × α) :=
  (mapHas m k, m.filter (fun p => p.1 != k))

/-- The pipeline context (class PipelineContext).  `input`, `output`,
`performanceMetrics` and the validation fields are modelled separately with
the Builder (they never interact with the resource map or the error logs);
the fields below are the ones the step and policy layers mutate. -/
structure PipelineContext (α : Type) where
  dataRepository : List (String × α) := []
  hasPipeFailure : Bool := false
  errors : List String := []
  pipelineErrors : List PipelineErrorEntry := []
  continueOnFailure : Bool := false
deriving Repr

/-- `PipelineContext.getResource`: the value, or the thrown not-found error. -/
def getResource {α : Type} (ctx : PipelineContext α) (key : String) : Except String α :=
  match mapGet ctx.dataRepository key with
  | none => .error s!"Resource with key \x27{key}\x27 was not found in the context."
  | some v => .ok v

/-- `PipelineContext.tryGetResource`: the `{success, value}` record, never a
thrown error (the function is total). -/
def tryGetResource {α : Type} (ctx : PipelineContext α) (key : String)
    (defaultValue : Option α) : Bool × Option α :=
  if mapHas ctx.dataRepository key then (true, mapGet ctx.dataRepository key)
  else (false, defaultValue)

/-- `PipelineContext.addResource`: the thrown already-exists error, or `ok`
together with the mutated context (on the error path the context is returned
unchanged, as the JS method throws before touching the map). -/
def addResource {α : Type} (ctx : PipelineContext α) (key : String) (value : α) :
    Except String Unit × PipelineContext α :=
  if mapHas ctx.dataRepository key then
    (.error s!"A resource with key \x27{key}\x27 already exists in the context.", ctx)
  else (.ok (), { ctx with dataRepository := mapSet ctx.dataRepository key value })

/-- `PipelineContext.tryAddResource`: `false` (context untouched) when the key
is present, else `true` and the insertion. -/
def tryAddResource {α : Type} (ctx : PipelineContext α) (key : String) (value : α) :
    Bool × PipelineContext α :=
  if mapHas ctx.dataRepository key then (false, ctx)
  else (true, { ctx with dataRepository := mapSet ctx.dataRepository key value })

/-- `PipelineContext.updateResource`: thrown not-found error when absent, else
the overwrite. -/
def updateResource {α : Type} (ctx : PipelineContext α) (key : String) (value : α) :
    Except String Unit × PipelineContext α :=
  if mapHas ctx.dataRepository key then
    (.ok (), { ctx with dataRepository := mapSet ctx.dataRepository key value })
  else (.error s!"Resource with key \x27{key}\x27 was not found in the context.", ctx)

/-- `PipelineContext.removeResource`: `Map.delete` on the repository, no throw
on either path. -/
def removeResource {α : Type} (ctx : PipelineContext α) (key : String) :
    Bool × PipelineContext α :=
  let r := mapDelete ctx.dataRepository key
  (r.1, { ctx with dataRepository := r.2 })

/-! ## Default validator (src/src/validation/DefaultPipelineValidator.ts)

A pipe enters validation only through its two metadata accessors, so a pipe is
modelled by its declared required/provided resource keys.  A JS `Set` is an
insertion-ordered list without duplicates; `Set.add` is `insertSet`.
-/

/-- A pipe as the validator sees it: `getRequiredResources()` and
`getProvidedResources()` (contracts/IPipe, both default to empty). -/
structure PipeSpec where
  requiredResources : List String := []
  providedResources : List String := []
deriving Repr

/-- `Set.add`: append unless already present. -/
def insertSet (s : List String) (x : String) : List String :=
  if x ∈ s then s else s ++ [x]

/-- Adding every element of a list to a set, in order. -/
def addAllSet (s : List String) (xs : List String) : List String :=
  xs.foldl insertSet s

/-- The collection loop of `DefaultPipelineValidator.validate`: one pass over
the pipes accumulating `allRequiredResources` and `providedResources`. -/
def collectResources (pipes : List PipeSpec) : List String × List String :=
  pipes.foldl
    (fun acc pipe =>
      (addAllSet acc.1 pipe.requiredResources, addAllSet acc.2 pipe.providedResources))
    ([], [])

/-- The error string pushed for a required key with no provider. -/
def requiredResourceError (r : String) : String :=
  s!"Required resource \x27{r}\x27 is not provided by any pipe in the pipeline"

/-- `DefaultPipelineValidator.validate`: every collected required key absent
from the provided set yields one error string, in set order. -/
def defaultValidate (pipes : List PipeSpec) : List String :=
  let collected := collectResources pipes
  ((collected.1).filter (fun r => ¬ (collected.2).contains r)).map requiredResourceError

/-! ## Builder validation (src/src/PipelineBuilder.ts)

The step list is the closed union of the four step kinds; for validation a
step only contributes its pipes (`extractPipesFromStep`), so the model keeps
just those.  A custom validator is an arbitrary function from the flattened
pipe list to result strings (`validate(context, pipes)`; the context argument
feeds only user code and is dropped).  A thrown builder precondition error is
the `.error` branch.
-/

/-- A pipeline step as `extractPipesFromStep` distinguishes them: sequential
and conditional steps carry one pipe, a parallel step its pipe list, and a
sub-pipeline step the flattening of its nested builder's steps (its
`getPipes`). -/
inductive BuilderStep where
  | sequential (pipe : PipeSpec)
  | conditional (pipe : PipeSpec)
  | parallel (pipes : List PipeSpec)
  | subPipeline (pipes : List PipeSpec)
deriving Repr

/-- `PipelineBuilder.extractPipesFromStep`. -/
def extractPipesFromStep : BuilderStep → List PipeSpec
  | .sequential p => [p]
  | .conditional p => [p]
  | .parallel ps => ps
  | .subPipeline ps => ps

/-- The builder state that `validateConfigurationForResult` reads: steps in
attachment order, the optionally attached context (its resource type `α`),
the optional source (type `τ`) and the optional custom validator. -/
structure PipelineBuilder (α τ : Type) where
  steps : List BuilderStep := []
  context : Option (PipelineContext α) := none
  source : Option τ := none
  validator : Option (List PipeSpec → List String) := none

/-- The `"WARNING:"` marker that buckets a validation string into warnings. -/
def warningPrefix : String := "WARNING:"

/-- `PipelineBuilder.validateConfigurationForResult`: the three precondition
checks throw (in order: context, source, steps), then the flattened pipe list
goes to the attached validator or the default one, and the result strings are
split on the warning marker, the marker (8 characters) stripped from
warnings. -/
def validateConfigurationForResult {α τ : Type} (b : PipelineBuilder α τ) :
    Except String (List String × List String) :=
  if b.context.isNone then .error "Context must be attached, call attachContext()"
  else if b.source.isNone then .error "Source must be set, call setSource()"
  else if b.steps.length = 0 then .error "At least one step must be attached to the pipeline"
  else
    let pipes := b.steps.flatMap extractPipesFromStep
    let validationResults :=
      match b.validator with
      | some v => v pipes
      | none => defaultValidate pipes
    .ok (validationResults.filter (fun e => ¬ e.startsWith warningPrefix),
         (validationResults.filter (fun e => e.startsWith warningPrefix)).map
           (fun e => e.drop 8))

/-! ## Error recording and the sequential step
(src/src/steps/SequentialStep.ts, ErrorHandlingUtils)

A pipe execution over a context either fulfils with the mutated context or
rejects with an error message and the context as mutated up to the throw.
The try-block of `SequentialStep.execute` picks the policy, else the
strategy, else the pipe itself; all three are one awaited execution over the
context, abstracted here as the `runPipe` argument.  No cancellation token is
in play (the `undefined` token case).
-/

/-- The settled outcome of one pipe execution over a context. -/
inductive PipeRunResult (α : Type) where
  | ok (ctx : PipelineContext α)
  | err (msg : String) (ctx : PipelineContext α)
deriving Repr

/-- `ErrorHandlingUtils.addErrorToContext`: set `hasPipeFailure`, push the
(optionally prefixed) message onto `errors`, and push the detailed entry onto
`pipelineErrors`. -/
def addErrorToContext {α : Type} (ctx : PipelineContext α) (msg : String)
    (pipeName : Option String) (messagePrefix : Option String)
    (attemptNumber : Option Nat) : PipelineContext α :=
  let errorMessage :=
    match messagePrefix with
    | some p => s!"{p}: {msg}"
    | none => msg
  { ctx with
    hasPipeFailure := true
    errors := ctx.errors ++ [errorMessage]
    pipelineErrors := ctx.pipelineErrors ++
      [{ message := errorMessage, pipeName := pipeName, attemptNumber := attemptNumber }] }

/-- `ErrorHandlingUtils.handleContinueOnFailure` (no prefix, no attempt). -/
def handleContinueOnFailure {α : Type} (ctx : PipelineContext α) (msg : String)
    (pipeName : String) : PipelineContext α :=
  addErrorToContext ctx msg (some pipeName) none none

/-- `SequentialStep.execute` without a cancellation token: run the pipe; on a
throw, consult `context.continueOnFailure` (as mutated by the pipe) — when
true, record via `handleContinueOnFailure` and swallow; when false, re-throw
the error as caught, with no recording on this path. -/
def SequentialStep.execute {α : Type} (runPipe : PipelineContext α → PipeRunResult α)
    (pipeName : String) (ctx : PipelineContext α) : PipeRunResult α :=
  match runPipe ctx with
  | .ok c => .ok c
  | .err e c =>
    if c.continueOnFailure then .ok (handleContinueOnFailure c e pipeName)
    else .err e c

/-! ## Parallel step settlement timing (src/src/steps/SequentialStep.ts,
class ParallelStep, and src/unnamed/part_006)

`ParallelStep.execute` maps every pipe through `executePipe` and awaits
`Promise.all(promises)`.  For the settlement-order claim each launched pipe
is modelled by the (virtual) time at which its execution settles and whether
it rejects; `executePipe` turns a rejection into a fulfilment when
`context.continueOnFailure` is set (the shared flag, one value for the whole
step).  `Promise.all` fulfils once every member promise has fulfilled (at the
last settle time) but rejects as soon as the first member rejection settles
(at the earliest rejecting member's settle time), leaving later members
unawaited. -/

/-- One launched pipe of a parallel step: when its execution settles and
whether `pipe.handle` (through its policy/strategy) rejects. -/
structure PipePromise where
  settleTime : Nat
  fails : Bool
deriving Repr, DecidableEq

/-- `ParallelStep.executePipe` as a settled promise: the catch swallows the
failure when `continueOnFailure` holds, so the promise rejects only when the
pipe fails and the flag is off. -/
def executePipePromise (continueOnFailure : Bool) (p : PipePromise) : Nat × Bool :=
  (p.settleTime, p.fails && !continueOnFailure)

/-- The least element of a list of times (`none` when empty). -/
def minTime? : List Nat → Option Nat
  | [] => none
  | t :: ts =>
    match minTime? ts with
    | none => some t
    | some m => some (min t m)

/-- `Promise.all` over settled member promises `(settleTime, rejects)`:
fulfils at the last settle time when no member rejects, otherwise rejects at
the earliest rejecting member's settle time. -/
def promiseAll (ps : List (Nat × Bool)) : Nat × Bool :=
  if ps.all (fun q => !q.2) then (ps.foldl (fun a q => max a q.1) 0, false)
  else
    match minTime? ((ps.filter (fun q => q.2)).map (fun q => q.1)) with
    | some t => (t, true)
    | none => (0, true)

/-- `ParallelStep.execute` without a cancellation token: launch every pipe
through `executePipe` and await `Promise.all`; the result is the step
promise's settle time and whether it rejects. -/
def ParallelStep.execute (continueOnFailure : Bool) (pipes : List PipePromise) : Nat × Bool :=
  promiseAll (pipes.map (executePipePromise continueOnFailure))

/-! ## Retry policy and retry-with-backoff strategy
(src/src/error-handling/RetryPolicy.ts, RetryWithBackoffStrategy.ts)

The constructors coerce their numeric parameters exactly as the source does;
`execute` is the while-loop over attempts, with the pipe's behaviour given as
a function from the invocation index (0-based) to `none` (fulfil) or
`some errorMessage` (reject).  The loop runs with no cancellation token; the
observable trace keeps the invocation count, the backoff delays waited, the
entries recorded into the context's error logs and the finally thrown error.
-/

/-- The coerced fields of a `RetryPolicy` (constructor, `maxAttempts`,
`delay`, `maxDelay`, `useExponentialBackoff`; the optional `shouldRetry`
predicate is passed to `execute` separately). -/
structure RetryPolicy where
  maxAttempts : Int
  delay : Int
  maxDelay : Int
  useExponentialBackoff : Bool
deriving Repr, DecidableEq

/-- `new RetryPolicy(maxAttempts, delay, maxDelay, useExponentialBackoff)`:
each numeric argument is kept when positive, else replaced (`maxAttempts`
by 1, `delay` by 1000, `maxDelay` by 60000). -/
def RetryPolicy.make (maxAttempts delay maxDelay : Int) (useExponentialBackoff : Bool) :
    RetryPolicy :=
  { maxAttempts := if maxAttempts > 0 then maxAttempts else 1
    delay := if delay > 0 then delay else 1000
    maxDelay := if maxDelay > 0 then maxDelay else 60000
    useExponentialBackoff := useExponentialBackoff }

/-- The coerced fields of a `RetryWithBackoffStrategy` (constructor:
`maxAttempts`, `initialDelay`, `maxDelay`). -/
structure RetryWithBackoffStrategy where
  maxAttempts : Int
  initialDelay : Int
  maxDelay : Int
deriving Repr, DecidableEq

/-- `new RetryWithBackoffStrategy(maxAttempts, initialDelay, maxDelay)`: same
coercion scheme as the retry policy (`maxAttempts` to 1 when non-positive). -/
def RetryWithBackoffStrategy.make (maxAttempts initialDelay maxDelay : Int) :
    RetryWithBackoffStrategy :=
  { maxAttempts := if maxAttempts > 0 then maxAttempts else 1
    initialDelay := if initialDelay > 0 then initialDelay else 1000
    maxDelay := if maxDelay > 0 then maxDelay else 60000 }

/-- The delay computed inside the retry loop after the failure that made the
attempt counter reach `attempts`: the flat `delay`, or
`delay * 2 ^ (attempts - 1)` capped at `maxDelay` under exponential
backoff. -/
def retryComputeDelay (p : RetryPolicy) (attempts : Nat) : Int :=
  if p.useExponentialBackoff then
    let d := p.delay * 2 ^ (attempts - 1)
    if d > p.maxDelay then p.maxDelay else d
  else p.delay

/-- What one `RetryPolicy.execute` call did: how often the pipe ran, which
delays were awaited, what was recorded into the context's error logs
(message and attempt number, via `ErrorHandlingUtils.addErrorToContext`) and
the error it finally threw (`none` on success). -/
structure RetryTrace where
  invocations : Nat
  delays : List Int
  recorded : List (String × Nat)
  thrown : Option String
deriving Repr, DecidableEq

/-- `ErrorHandlingConstants.NON_RETRYABLE_EXCEPTION` with `%d` replaced and
the caught error appended, as `addErrorToContext` prefixes it. -/
def nonRetryableMessage (attempts : Nat) (e : String) : String :=
  s!"Pipe failed after {attempts} attempt(s) - non-retryable exception: {e}"

/-- `ErrorHandlingConstants.PIPE_FAILED_AFTER_RETRIES` with `%d` replaced by
`maxAttempts` and the caught error appended. -/
def pipeFailedAfterRetriesMessage (maxAttempts : Int) (e : String) : String :=
  s!"Pipe failed after {maxAttempts} attempt(s): {e}"

/-- The while-loop of `RetryPolicy.execute`.  `attempts` is the loop
variable, `invocations` counts `pipe.handle` calls so far, `delays` the
backoff waits so far; `fuel` bounds the recursion (the loop adds one to
`attempts` every iteration, so `maxAttempts.toNat` steps always suffice).
On a failure the loop first consults `shouldRetry` (recording and
re-throwing a non-retryable error), then breaks out to the final recording
when attempts are exhausted, else waits the computed delay and retries.
An exhausted loop records `PIPE_FAILED_AFTER_RETRIES` with the attempt
number and re-throws the last error. -/
def retryLoop (p : RetryPolicy) (shouldRetry : Option (String → Bool))
    (pipe : Nat → Option String) (attempts invocations : Nat) (delays : List Int)
    (lastError : Option String) : Nat → RetryTrace
  | 0 =>
    { invocations := invocations, delays := delays
      recorded := [(pipeFailedAfterRetriesMessage p.maxAttempts
        (lastError.getD "Unknown error after retries"), attempts)]
      thrown := some (lastError.getD "Unknown error after retries") }
  | fuel + 1 =>
    if (attempts : Int) < p.maxAttempts then
      match pipe invocations with
      | none =>
        { invocations := invocations + 1, delays := delays, recorded := [], thrown := none }
      | some e =>
        let attempts1 := attempts + 1
        if (match shouldRetry with | some f => !f e | none => false) then
          { invocations := invocations + 1, delays := delays
            recorded := [(nonRetryableMessage attempts1 e, attempts1)]
            thrown := some e }
        else if (attempts1 : Int) ≥ p.maxAttempts then
          { invocations := invocations + 1, delays := delays
            recorded := [(pipeFailedAfterRetriesMessage p.maxAttempts e, attempts1)]
            thrown := some e }
        else
          retryLoop p shouldRetry pipe attempts1 (invocations + 1)
            (delays ++ [retryComputeDelay p attempts1]) (some e) fuel
    else
      { invocations := invocations, delays := delays
        recorded := [(pipeFailedAfterRetriesMessage p.maxAttempts
          (lastError.getD "Unknown error after retries"), attempts)]
        thrown := some (lastError.getD "Unknown error after retries") }

/-- `RetryPolicy.execute` without a cancellation token. -/
def RetryPolicy.execute (p : RetryPolicy) (shouldRetry : Option (String → Bool))
    (pipe : Nat → Option String) : RetryTrace :=
  retryLoop p shouldRetry pipe 0 0 [] none p.maxAttempts.toNat

/-! ## Circuit breaker strategy (src/src/error-handling/CircuitBreakerStrategy.ts)

The strategy object owns `state`, `failureCount` and `lastFailureTime`; one
`execute` call is a transition on that record.  The call is parametrised by
the clock value `now` (`Date.now()`), by what the pipe would do if invoked
(`none` fulfil / `some e` reject) and by the optional `shouldHandle`
predicate.  The outcome distinguishes the fast-fail path (pipe never
invoked) from an invoked success, an excluded (non-counted) failure and a
counted failure. -/

/-- `CircuitState`. -/
inductive CircuitState where
  | Closed
  | Open
  | HalfOpen
deriving Repr, DecidableEq

/-- The coerced constructor parameters (`failureThreshold`, `timeout`). -/
structure CircuitBreakerStrategy where
  failureThreshold : Int
  timeout : Int
deriving Repr, DecidableEq

/-- `new CircuitBreakerStrategy(failureThreshold, timeout)`: non-positive
arguments fall back to the defaults 5 and 60000. -/
def CircuitBreakerStrategy.make (failureThreshold timeout : Int) : CircuitBreakerStrategy :=
  { failureThreshold := if failureThreshold > 0 then failureThreshold else 5
    timeout := if timeout > 0 then timeout else 60000 }

/-- The strategy instance's mutable fields. -/
structure CBState where
  state : CircuitState
  failureCount : Nat
  lastFailureTime : Option Int
deriving Repr, DecidableEq

/-- A freshly constructed strategy: Closed, zero failures, no failure time. -/
def cbInitial : CBState :=
  { state := .Closed, failureCount := 0, lastFailureTime := none }

/-- How one `execute` call ended. -/
inductive CBOutcome where
  | rejectedOpen
  | success
  | thrownExcluded (e : String)
  | thrownCounted (e : String)
deriving Repr, DecidableEq

/-- Whether the caught error counts for the breaker: `shouldHandle` absent, or
accepting the error (`if (this.shouldHandle && !this.shouldHandle(err))`
re-throws without counting). -/
def cbQualifies (shouldHandle : Option (String → Bool)) (e : String) : Bool :=
  match shouldHandle with
  | some f => f e
  | none => true

/-- `CircuitBreakerStrategy.execute` without a cancellation token.  In the
Open state with the timeout not yet elapsed since `lastFailureTime` the call
fails fast and the pipe is not invoked (the `pipeResult` argument is
ignored); otherwise an Open breaker moves to HalfOpen first.  Then the pipe
runs: a success in HalfOpen resets the circuit; a failure excluded by
`shouldHandle` re-throws without touching the count; a counted failure
increments `failureCount`, stamps `lastFailureTime := now` and opens the
circuit once the count reaches the threshold.  (The error-log pushes on the
failure paths are the generic recording already modelled with the steps and
are not repeated here.) -/
def CircuitBreakerStrategy.execute (cfg : CircuitBreakerStrategy)
    (shouldHandle : Option (String → Bool)) (st : CBState) (now : Int)
    (pipeResult : Option String) : CBState × CBOutcome :=
  let entry : Option CBState :=
    match st.state, st.lastFailureTime with
    | .Open, some t =>
      if now - t < cfg.timeout then none else some { st with state := .HalfOpen }
    | .Open, none => some { st with state := .HalfOpen }
    | _, _ => some st
  match entry with
  | none => (st, .rejectedOpen)
  | some st1 =>
    match pipeResult with
    | none =>
      if st1.state = .HalfOpen then (cbInitial, .success) else (st1, .success)
    | some e =>
      if cbQualifies shouldHandle e then
        let fc := st1.failureCount + 1
        ({ state := if (fc : Int) ≥ cfg.failureThreshold then .Open else st1.state
           failureCount := fc
           lastFailureTime := some now }, .thrownCounted e)
      else (st1, .thrownExcluded e)

/-- A sequence of `execute` calls on one strategy instance: each element is
the clock value and the pipe's would-be behaviour for that call. -/
def cbRun (cfg : CircuitBreakerStrategy) (shouldHandle : Option (String → Bool))
    (st : CBState) : List (Int × Option String) → CBState × List CBOutcome
  | [] => (st, [])
  | c :: cs =>
    let r := CircuitBreakerStrategy.execute cfg shouldHandle st c.1 c.2
    let rest := cbRun cfg shouldHandle r.1 cs
    (rest.1, r.2 :: rest.2)

/-- The claim's reading of the failure counter: the number of consecutive
qualifying failures, i.e. the length of the trailing run of failures in the
call history (`true` = qualifying failure, `false` = success). -/
def consecutiveQualifyingFailures (calls : List Bool) : Nat :=
  (calls.reverse.takeWhile id).length

/-! ## Fallback policy (src/src/error-handling/FallbackPolicy.ts)

One `execute` call, parametrised by what the primary pipe and the fallback
pipe would do (`none` fulfil / `some e` reject) and the optional
`shouldFallback` predicate.  The trace records whether the fallback pipe was
invoked, the strings pushed onto `context.errors` and onto the detailed log,
and the finally thrown error. -/

/-- The observable outcome of `FallbackPolicy.execute`. -/
structure FallbackTrace where
  fallbackInvoked : Bool
  errors : List String
  pipelineErrors : List String
  thrown : Option String
deriving Repr, DecidableEq

/-- `FallbackPolicy.execute` without a cancellation token: run the primary;
on failure, a rejecting `shouldFallback` records and re-throws the primary
error without invoking the fallback; otherwise the fallback runs — its
success ends the call quietly, its failure records the combined
primary-and-fallback message and re-throws the fallback's error. -/
def FallbackPolicy.execute (shouldFallback : Option (String → Bool))
    (primary fallback : Option String) : FallbackTrace :=
  match primary with
  | none => { fallbackInvoked := false, errors := [], pipelineErrors := [], thrown := none }
  | some e =>
    if (match shouldFallback with | some f => !f e | none => false) then
      { fallbackInvoked := false
        errors := [e]
        pipelineErrors := [s!"Primary pipe failed but fallback not executed: {e}"]
        thrown := some e }
    else
      match fallback with
      | none =>
        { fallbackInvoked := true, errors := [], pipelineErrors := [], thrown := none }
      | some f =>
        { fallbackInvoked := true
          errors := [s!"Primary: {e}, Fallback: {f}"]
          pipelineErrors :=
            [s!"Both primary and fallback pipes failed: Primary: {e}, Fallback: {f}"]
          thrown := some f }

/-! ## Performance-metrics bookkeeping of the builder's execution
(src/src/PipelineBuilder.ts, executeInternal; models PerformanceMetrics and
MemoryMetrics)

`executeInternal` first ensures the context carries a metrics record —
creating one with `isEnabled := true` when it is absent — and from then on
every metrics write is guarded only by `isEnabled`.  The model takes the
wall-clock values and per-step durations as parameters (`Date.now()` at
start and end, `getMemoryUsage()` samples, the measured duration and derived
name of each step, and the id `generateCorrelationId()` would produce) and
returns the resulting metrics record.  (`pipeDurations` starts as the empty
object, which is truthy in JS, so the JS guard `pm.isEnabled &&
pm.pipeDurations` is just `isEnabled` here.) -/

/-- models/MemoryMetrics: the fields executeInternal writes. -/
structure MemoryMetrics where
  initialMemoryBytes : Option Int := none
  finalMemoryBytes : Option Int := none
deriving Repr, DecidableEq

/-- models/PerformanceMetrics: the fields executeInternal writes
(customMetrics is never touched there and is omitted). -/
structure PerformanceMetrics where
  isEnabled : Bool := false
  correlationId : Option String := none
  startTime : Option Int := none
  endTime : Option Int := none
  totalDurationMs : Option Int := none
  memoryMetrics : Option MemoryMetrics := none
  pipeDurations : List (String × Int) := []
deriving Repr, DecidableEq

/-- The metrics bookkeeping of `PipelineBuilder.executeInternal`, in source
order: ensure a record exists (fresh one enabled), stamp the start data when
enabled, record each step's duration when enabled, stamp the end data when
enabled. -/
def executeInternalMetrics (pm0 : Option PerformanceMetrics) (startTime : Int)
    (stepDurations : List (String × Int)) (endTime : Int)
    (memInitial memFinal : Int) (generatedId : String) : PerformanceMetrics :=
  let pm :=
    match pm0 with
    | none => { (({} : PerformanceMetrics)) with isEnabled := true }
    | some p => p
  let pm :=
    if pm.isEnabled then
      { pm with
        startTime := some startTime
        memoryMetrics := some
          { pm.memoryMetrics.getD {} with initialMemoryBytes := some memInitial }
        correlationId := some (pm.correlationId.getD generatedId) }
    else pm
  let pm := stepDurations.foldl
    (fun acc nd =>
      if acc.isEnabled then
        { acc with pipeDurations := mapSet acc.pipeDurations nd.1 nd.2 }
      else acc)
    pm
  if pm.isEnabled then
    { pm with
      endTime := some endTime
      totalDurationMs := some (endTime - startTime)
      memoryMetrics :=
        match pm.memoryMetrics with
        | some mm => some { mm with finalMemoryBytes := some memFinal }
        | none => none }
  else pm

/-! ## Map lemmas -/

theorem mapHas_false_forall {α : Type} {m : List (String × α)} {k : String}
    (h : mapHas m k = false) : ∀ p ∈ m, (p.1 == k) = false := by
  intro p hp
  have := List.any_eq_false.mp h
  simpa using this p hp

theorem mapGet_eq_none_of_not_has {α : Type} {k : String} :
    ∀ {m : List (String × α)}, mapHas m k = false → mapGet m k = none := by
  intro m
  induction m with
  | nil => intro _; rfl
  | cons p ps ih =>
    intro h
    have hp : (p.1 == k) = false := mapHas_false_forall h p (by simp)
    have hrest : mapHas ps k = false := by
      simp only [mapHas, List.any_cons] at h
      exact (Bool.or_eq_false_iff.mp h).2
    simp only [mapGet, List.find?_cons, hp]
    exact ih hrest

theorem mapHas_append_self {α : Type} (m : List (String × α)) (k : String) (v : α) :
    mapHas (m ++ [(k, v)]) k = true := by
  simp [mapHas]

theorem mapGet_append_self {α : Type} {k : String} (v : α) :
    ∀ {m : List (String × α)}, mapHas m k = false → mapGet (m ++ [(k, v)]) k = some v := by
  intro m
  induction m with
  | nil => intro _; simp [mapGet]
  | cons p ps ih =>
    intro h
    have hp : (p.1 == k) = false := mapHas_false_forall h p (by simp)
    have hrest : mapHas ps k = false := by
      simp only [mapHas, List.any_cons] at h
      exact (Bool.or_eq_false_iff.mp h).2
    simp only [List.cons_append, mapGet, List.find?_cons, hp]
    exact ih hrest

theorem filter_ne_eq_self_of_not_has {α : Type} {m : List (String × α)} {k : String}
    (h : mapHas m k = false) : m.filter (fun p => p.1 != k) = m := by
  apply List.filter_eq_self.mpr
  intro p hp
  have := mapHas_false_forall h p hp
  simp [bne, this]

/-! ## Claim theorems -/

/-- C9: on every context and key, `addResource` on a fresh key succeeds but a
second `addResource` with the same key fails and leaves the stored value (and
the whole context) unchanged; `tryAddResource` on a present key returns
`false` without failing; `removeResource` on an absent key returns `false`
without failing; `getResource` on an absent key fails; and `tryGetResource`
is total, returning the found-flag matching key presence and the default
when absent. -/
theorem resource_map_contract {α : Type} (ctx : PipelineContext α) (k : String)
    (v v2 : α) (d : Option α) :
    (mapHas ctx.dataRepository k = false →
      (addResource ctx k v).1 = .ok () ∧
      (addResource (addResource ctx k v).2 k v2).1 =
        .error s!"A resource with key \x27{k}\x27 already exists in the context." ∧
      (addResource (addResource ctx k v).2 k v2).2 = (addResource ctx k v).2 ∧
      mapGet (addResource (addResource ctx k v).2 k v2).2.dataRepository k = some v) ∧
    (mapHas ctx.dataRepository k = true → tryAddResource ctx k v = (false, ctx)) ∧
    (mapHas ctx.dataRepository k = false → removeResource ctx k = (false, ctx)) ∧
    (mapHas ctx.dataRepository k = false →
      getResource ctx k =
        .error s!"Resource with key \x27{k}\x27 was not found in the context.") ∧
    ((tryGetResource ctx k d).1 = mapHas ctx.dataRepository k ∧
      (mapHas ctx.dataRepository k = false → (tryGetResource ctx k d).2 = d)) := by
  refine ⟨?_, ?_, ?_, ?_, ?_, ?_⟩
  · intro h
    have hset : mapSet ctx.dataRepository k v = ctx.dataRepository ++ [(k, v)] := by
      simp [mapSet, h]
    have h1 : (addResource ctx k v).1 = .ok () := by simp [addResource, h]
    have h2 : (addResource ctx k v).2 =
        { ctx with dataRepository := ctx.dataRepository ++ [(k, v)] } := by
      simp [addResource, h, hset]
    have hhas : mapHas (ctx.dataRepository ++ [(k, v)]) k = true :=
      mapHas_append_self ctx.dataRepository k v
    refine ⟨h1, ?_, ?_, ?_⟩
    · simp [addResource, h, hset, hhas]
    · simp [addResource, h, hset, hhas]
    · simp [addResource, h, hset, hhas, mapGet_append_self v h]
  · intro h
    simp [tryAddResource, h]
  · intro h
    simp [removeResource, mapDelete, h, filter_ne_eq_self_of_not_has h]
  · intro h
    simp [getResource, mapGet_eq_none_of_not_has h]
  · simp only [tryGetResource]
    cases hh : mapHas ctx.dataRepository k <;> simp [hh]
  · intro h
    simp [tryGetResource, h]

/-- Witness for C9: concrete discharges of each hypothesis on an empty
context and on a context already holding the key. -/
theorem resource_map_contract_witness :
    ((addResource ({} : PipelineContext Nat) "k" 1).1 = .ok () ∧
      (addResource (addResource ({} : PipelineContext Nat) "k" 1).2 "k" 2).1 =
        .error "A resource with key \x27k\x27 already exists in the context." ∧
      (addResource (addResource ({} : PipelineContext Nat) "k" 1).2 "k" 2).2 =
        (addResource ({} : PipelineContext Nat) "k" 1).2 ∧
      mapGet (addResource (addResource ({} : PipelineContext Nat) "k" 1).2 "k" 2).2.dataRepository
        "k" = some 1) ∧
    tryAddResource ({ dataRepository := [("k", 5)] } : PipelineContext Nat) "k" 1 =
      (false, { dataRepository := [("k", 5)] }) ∧
    removeResource ({} : PipelineContext Nat) "k" = (false, {}) ∧
    getResource ({} : PipelineContext Nat) "k" =
      .error "Resource with key \x27k\x27 was not found in the context." ∧
    (tryGetResource ({} : PipelineContext Nat) "k" (some 7)).2 = some 7 := by
  have h0 : mapHas (({} : PipelineContext Nat)).dataRepository "k" = false := by decide
  have h1 : mapHas (({ dataRepository := [("k", 5)] } : PipelineContext Nat)).dataRepository
      "k" = true := by decide
  have t := resource_map_contract ({} : PipelineContext Nat) "k" 1 2 (some 7)
  have t1 := resource_map_contract ({ dataRepository := [("k", 5)] } : PipelineContext Nat)
    "k" 1 2 none
  exact ⟨t.1 h0, t1.2.1 h1, t.2.2.1 h0, t.2.2.2.1 h0, t.2.2.2.2.2 h0⟩

/-! ## Set lemmas for the validator -/

theorem mem_insertSet {s : List String} {x y : String} :
    x ∈ insertSet s y ↔ x ∈ s ∨ x = y := by
  by_cases h : y ∈ s
  · simp only [insertSet, if_pos h]
    constructor
    · exact Or.inl
    · rintro (hx | rfl)
      · exact hx
      · exact h
  · simp [insertSet, if_neg h]

theorem nodup_insertSet {s : List String} {y : String} (h : s.Nodup) :
    (insertSet s y).Nodup := by
  by_cases hy : y ∈ s
  · simpa [insertSet, if_pos hy] using h
  · simp [insertSet, if_neg hy, List.nodup_append, h, hy]

theorem mem_addAllSet (x : String) :
    ∀ (xs s : List String), x ∈ addAllSet s xs ↔ x ∈ s ∨ x ∈ xs
  | [], s => by simp [addAllSet]
  | y :: ys, s => by
    simp only [addAllSet, List.foldl_cons]
    have ih := mem_addAllSet x ys (insertSet s y)
    simp only [addAllSet] at ih
    rw [ih, mem_insertSet]
    simp only [List.mem_cons]
    tauto

theorem nodup_addAllSet :
    ∀ (xs s : List String), s.Nodup → (addAllSet s xs).Nodup
  | [], _, h => h
  | y :: ys, s, h => by
    simp only [addAllSet, List.foldl_cons]
    have ih := nodup_addAllSet ys (insertSet s y) (nodup_insertSet h)
    simpa [addAllSet] using ih

theorem collect_fold_mem (x : String) :
    ∀ (pipes : List PipeSpec) (acc : List String × List String),
    (x ∈ (pipes.foldl (fun acc pipe =>
        (addAllSet acc.1 pipe.requiredResources, addAllSet acc.2 pipe.providedResources))
        acc).1 ↔ x ∈ acc.1 ∨ ∃ p ∈ pipes, x ∈ p.requiredResources) ∧
    (x ∈ (pipes.foldl (fun acc pipe =>
        (addAllSet acc.1 pipe.requiredResources, addAllSet acc.2 pipe.providedResources))
        acc).2 ↔ x ∈ acc.2 ∨ ∃ p ∈ pipes, x ∈ p.providedResources)
  | [], acc => by simp
  | q :: qs, acc => by
    simp only [List.foldl_cons]
    have ih := collect_fold_mem x qs
      (addAllSet acc.1 q.requiredResources, addAllSet acc.2 q.providedResources)
    constructor
    · rw [ih.1]
      simp only [mem_addAllSet, List.exists_mem_cons_iff]
      tauto
    · rw [ih.2]
      simp only [mem_addAllSet, List.exists_mem_cons_iff]
      tauto

theorem collect_fold_nodup :
    ∀ (pipes : List PipeSpec) (acc : List String × List String),
    acc.1.Nodup → acc.2.Nodup →
    (pipes.foldl (fun acc pipe =>
        (addAllSet acc.1 pipe.requiredResources, addAllSet acc.2 pipe.providedResources))
        acc).1.Nodup ∧
    (pipes.foldl (fun acc pipe =>
        (addAllSet acc.1 pipe.requiredResources, addAllSet acc.2 pipe.providedResources))
        acc).2.Nodup
  | [], _, h1, h2 => ⟨h1, h2⟩
  | q :: qs, acc, h1, h2 => by
    simp only [List.foldl_cons]
    exact collect_fold_nodup qs _
      (nodup_addAllSet q.requiredResources acc.1 h1)
      (nodup_addAllSet q.providedResources acc.2 h2)

theorem mem_collectResources_fst {pipes : List PipeSpec} {x : String} :
    x ∈ (collectResources pipes).1 ↔ ∃ p ∈ pipes, x ∈ p.requiredResources := by
  have := (collect_fold_mem x pipes ([], [])).1
  simpa [collectResources] using this

theorem mem_collectResources_snd {pipes : List PipeSpec} {x : String} :
    x ∈ (collectResources pipes).2 ↔ ∃ p ∈ pipes, x ∈ p.providedResources := by
  have := (collect_fold_mem x pipes ([], [])).2
  simpa [collectResources] using this

theorem nodup_collectResources_fst (pipes : List PipeSpec) :
    (collectResources pipes).1.Nodup := by
  have := collect_fold_nodup pipes ([], []) List.nodup_nil List.nodup_nil
  simpa [collectResources] using this.1

theorem string_sandwich_injective (p q : String) :
    Function.Injective (fun r => p ++ r ++ q) := by
  intro a b h
  have hd : (p ++ a ++ q).data = (p ++ b ++ q).data := congrArg String.data h
  simp only [String.data_append] at hd
  exact String.ext (List.append_cancel_left (List.append_cancel_right hd))

theorem requiredResourceError_injective : Function.Injective requiredResourceError := by
  have h := string_sandwich_injective "Required resource \x27"
    "\x27 is not provided by any pipe in the pipeline"
  intro a b hab
  exact h hab

/-- C7: the default validator reports exactly one error naming a required
resource key that no pipe provides, and zero errors for a required key that
any pipe anywhere in the flattened list provides — the provider's position is
irrelevant, as the check is on the unions of declared keys. -/
theorem defaultValidate_missing_key_count (pipes : List PipeSpec) (k : String) :
    ((∃ p ∈ pipes, k ∈ p.requiredResources) →
      (∀ p ∈ pipes, k ∉ p.providedResources) →
      (defaultValidate pipes).count (requiredResourceError k) = 1) ∧
    ((∃ p ∈ pipes, k ∈ p.providedResources) →
      (defaultValidate pipes).count (requiredResourceError k) = 0) := by
  constructor
  · intro hreq hnoprov
    have hk1 : k ∈ (collectResources pipes).1 := mem_collectResources_fst.mpr hreq
    have hk2 : k ∉ (collectResources pipes).2 := by
      intro hmem
      obtain ⟨p, hp, hkp⟩ := mem_collectResources_snd.mp hmem
      exact hnoprov p hp hkp
    have hfilter : k ∈ (collectResources pipes).1.filter
        (fun r => ¬ (collectResources pipes).2.contains r) := by
      rw [List.mem_filter]
      refine ⟨hk1, ?_⟩
      simp [hk2]
    have hnodup : ((collectResources pipes).1.filter
        (fun r => ¬ (collectResources pipes).2.contains r)).Nodup :=
      (nodup_collectResources_fst pipes).filter _
    simp only [defaultValidate]
    rw [List.count_map_of_injective _ requiredResourceError requiredResourceError_injective]
    exact List.count_eq_one_of_mem hnodup hfilter
  · intro hprov
    have hk2 : k ∈ (collectResources pipes).2 := mem_collectResources_snd.mpr hprov
    have hnotin : k ∉ (collectResources pipes).1.filter
        (fun r => ¬ (collectResources pipes).2.contains r) := by
      intro hmem
      have := (List.mem_filter.mp hmem).2
      simp [hk2] at this
    simp only [defaultValidate]
    rw [List.count_map_of_injective _ requiredResourceError requiredResourceError_injective]
    exact List.count_eq_zero.mpr hnotin

/-- Witness for C7: a pipe requiring a never-provided key yields one error
for it, while a key provided by a later pipe yields none. -/
theorem defaultValidate_missing_key_count_witness :
    (defaultValidate [{ requiredResources := ["x"] }]).count (requiredResourceError "x") = 1 ∧
    (defaultValidate [{ requiredResources := ["y"] },
        { providedResources := ["y"] }]).count (requiredResourceError "y") = 0 := by
  constructor
  · exact (defaultValidate_missing_key_count [{ requiredResources := ["x"] }] "x").1
      (by simp) (by simp)
  · exact (defaultValidate_missing_key_count [{ requiredResources := ["y"] },
      { providedResources := ["y"] }] "y").2 (by simp)

/-- Filtered halves of a list partition its length. -/
theorem length_filter_not_add_length_filter (l : List String) (p : String → Bool) :
    (l.filter (fun e => ¬ p e)).length + (l.filter p).length = l.length := by
  induction l with
  | nil => rfl
  | cons a as ih =>
    cases hp : p a <;> simp [List.filter_cons, hp, ← ih] <;> omega

/-- C2 counterexample: on the builder state with no attached context,
`validateConfigurationForResult` throws its precondition error instead of
returning a result record, refuting the claim that it never throws for every
builder state. -/
theorem validateConfigurationForResult_throws_without_context :
    validateConfigurationForResult ({} : PipelineBuilder Unit Unit) =
      .error "Context must be attached, call attachContext()" := rfl

/-- Every validation-result string lands in exactly one bucket of the
warning split: lengths add up, errors are the unprefixed strings, warnings
come from prefixed strings with the 8-character marker stripped. -/
theorem bucket_partition (results : List String) :
    (results.filter (fun e => ¬ e.startsWith warningPrefix)).length +
      ((results.filter (fun e => e.startsWith warningPrefix)).map
        (fun e => e.drop 8)).length = results.length ∧
    (∀ e ∈ results.filter (fun e => ¬ e.startsWith warningPrefix),
      e ∈ results ∧ e.startsWith warningPrefix = false) ∧
    (∀ w ∈ (results.filter (fun e => e.startsWith warningPrefix)).map
        (fun e => e.drop 8),
      ∃ s ∈ results, s.startsWith warningPrefix = true ∧ w = s.drop 8) := by
  refine ⟨?_, ?_, ?_⟩
  · rw [List.length_map]
    exact length_filter_not_add_length_filter results _
  · intro e he
    have := List.mem_filter.mp he
    refine ⟨this.1, ?_⟩
    simpa using this.2
  · intro w hw
    obtain ⟨s, hs1, hs2⟩ := List.mem_map.mp hw
    have := List.mem_filter.mp hs1
    exact ⟨s, this.1, this.2, hs2.symm⟩

/-- C2 (amended): once a context is attached, a source is set and at least
one step is attached, `validateConfigurationForResult` returns (never
throws) a record whose errors and warnings partition the attached (or
default) validator's result strings: every string lands in exactly one
bucket by its `"WARNING:"` prefix, warnings with the 8-character marker
stripped.  (With a missing context, source or step list it instead throws
the same precondition errors as `validateConfiguration`.) -/
theorem validateConfigurationForResult_partitions {α τ : Type}
    (b : PipelineBuilder α τ) (hc : b.context.isSome) (hs : b.source.isSome)
    (hn : b.steps ≠ []) :
    ∃ E W, validateConfigurationForResult b = .ok (E, W) ∧
      (∀ results, results = (match b.validator with
          | some v => v (b.steps.flatMap extractPipesFromStep)
          | none => defaultValidate (b.steps.flatMap extractPipesFromStep)) →
        E.length + W.length = results.length ∧
        (∀ e ∈ E, e ∈ results ∧ e.startsWith warningPrefix = false) ∧
        (∀ w ∈ W, ∃ s ∈ results, s.startsWith warningPrefix = true ∧ w = s.drop 8)) := by
  obtain ⟨steps, context, source, validator⟩ := b
  cases context with
  | none => simp at hc
  | some c =>
  cases source with
  | none => simp at hs
  | some s =>
  simp only at hn
  have hln : ¬ (steps.length = 0) := by simpa [List.length_eq_zero] using hn
  cases validator with
  | some v =>
    refine ⟨(v (steps.flatMap extractPipesFromStep)).filter
        (fun e => ¬ e.startsWith warningPrefix),
      ((v (steps.flatMap extractPipesFromStep)).filter
        (fun e => e.startsWith warningPrefix)).map (fun e => e.drop 8), ?_, ?_⟩
    · simp [validateConfigurationForResult, hln]
    · intro results hres
      simp only at hres
      subst hres
      exact bucket_partition _
  | none =>
    refine ⟨(defaultValidate (steps.flatMap extractPipesFromStep)).filter
        (fun e => ¬ e.startsWith warningPrefix),
      ((defaultValidate (steps.flatMap extractPipesFromStep)).filter
        (fun e => e.startsWith warningPrefix)).map (fun e => e.drop 8), ?_, ?_⟩
    · simp [validateConfigurationForResult, hln]
    · intro results hres
      simp only at hres
      subst hres
      exact bucket_partition _

/-- Witness for C2 (amended): a fully configured builder with a custom
validator returning one error string and one warning string. -/
theorem validateConfigurationForResult_partitions_witness :
    ∃ E W,
      validateConfigurationForResult
        ({ steps := [.sequential {}], context := some {}, source := some (),
           validator := some (fun _ => ["bad", "WARNING:careful"]) } :
          PipelineBuilder Unit Unit) = .ok (E, W) := by
  obtain ⟨E, W, heq, _⟩ := validateConfigurationForResult_partitions
    ({ steps := [.sequential {}], context := some {}, source := some (),
       validator := some (fun _ => ["bad", "WARNING:careful"]) } :
      PipelineBuilder Unit Unit) (by rfl) (by rfl) (by simp)
  exact ⟨E, W, heq⟩

/-- C3: at the failing input — a context with `continueOnFailure = false` and
an empty error log, and a pipe (run directly, no policy or strategy) that
throws without touching the context — `SequentialStep.execute` re-throws the
error and the returned context's error logs are still empty: the failure was
not recorded, although the specification says a pipe failure is recorded
into the context's error logs unconditionally (and the repository's own
sequential-step test expects `context.errors` to be non-empty on this
path). -/
theorem sequentialStep_rethrow_without_recording :
    SequentialStep.execute (fun c => .err "Intentional failure for testing" c)
        "FailingPipe" ({ continueOnFailure := false } : PipelineContext Unit) =
      .err "Intentional failure for testing"
        ({ continueOnFailure := false } : PipelineContext Unit) ∧
    (({ continueOnFailure := false } : PipelineContext Unit)).errors = [] ∧
    (({ continueOnFailure := false } : PipelineContext Unit)).pipelineErrors = [] := by
  refine ⟨rfl, rfl, rfl⟩

/-- `minTime?` is `none` exactly on the empty list. -/
theorem minTime?_eq_none_iff (l : List Nat) : minTime? l = none ↔ l = [] := by
  cases l with
  | nil => simp [minTime?]
  | cons a as =>
    simp only [minTime?]
    cases minTime? as <;> simp

/-- The value of `minTime?` is a member and a lower bound. -/
theorem minTime?_spec : ∀ (l : List Nat) (t : Nat), minTime? l = some t →
    t ∈ l ∧ ∀ x ∈ l, t ≤ x
  | [], t => by simp [minTime?]
  | a :: as, t => by
    intro h
    cases has : minTime? as with
    | none =>
      have : as = [] := (minTime?_eq_none_iff as).mp has
      subst this
      simp only [minTime?] at h
      cases h
      simp
    | some m =>
      simp only [minTime?, has] at h
      cases h
      obtain ⟨hm, hle⟩ := minTime?_spec as m has
      constructor
      · rcases Nat.le_total a m with hc | hc
        · simp [Nat.min_eq_left hc]
        · exact List.mem_cons_of_mem a (by simpa [Nat.min_eq_right hc] using hm)
      · intro x hx
        rcases List.mem_cons.mp hx with rfl | hx
        · exact Nat.min_le_left _ _
        · exact Nat.le_trans (Nat.min_le_right a m) (hle x hx)

/-- With `continueOnFailure` off, the promise of each launched pipe keeps its
settle time and rejects exactly when the pipe fails. -/
theorem mapped_rejection_times (pipes : List PipePromise) :
    ((pipes.map (executePipePromise false)).filter (fun q => q.2)).map (fun q => q.1) =
      (pipes.filter (fun p => p.fails)).map (fun p => p.settleTime) := by
  induction pipes with
  | nil => rfl
  | cons p ps ih =>
    cases hf : p.fails <;>
      simp [executePipePromise, List.filter_cons, hf, ih]

theorem mapped_all_fulfil (pipes : List PipePromise) :
    (pipes.map (executePipePromise false)).all (fun q => !q.2) =
      pipes.all (fun p => !p.fails) := by
  induction pipes with
  | nil => rfl
  | cons p ps ih => simp [executePipePromise, ih]

/-- C1 counterexample: a parallel step whose first pipe rejects at time 1
while its second pipe is still running until time 5 (continue-on-failure
off): `Promise.all` makes the step reject at time 1, strictly before the
second launched pipe has settled — refuting the claim that the failure
propagates only after every launched pipe has settled. -/
theorem parallelStep_rejects_before_all_settled :
    ParallelStep.execute false [⟨1, true⟩, ⟨5, false⟩] = (1, true) ∧ (1 : Nat) < 5 := by
  constructor
  · rfl
  · decide

/-- C1 (amended): with continue-on-failure off and at least one failing
pipe, `ParallelStep.execute` (which awaits `Promise.all`) rejects exactly
when the earliest-settling failing pipe settles: the propagation time equals
that pipe's settle time and is a lower bound of all failing pipes' settle
times, but it is not in general after every launched pipe has settled (the
all-success case alone completes after all pipes settle). -/
theorem parallelStep_rejects_at_first_failure (pipes : List PipePromise)
    (h : ∃ p ∈ pipes, p.fails = true) :
    (ParallelStep.execute false pipes).2 = true ∧
    ∃ p ∈ pipes, p.fails = true ∧ (ParallelStep.execute false pipes).1 = p.settleTime ∧
      ∀ q ∈ pipes, q.fails = true → p.settleTime ≤ q.settleTime := by
  obtain ⟨p0, hp0, hf0⟩ := h
  have hall : (pipes.map (executePipePromise false)).all (fun q => !q.2) = false := by
    rw [mapped_all_fulfil]
    simp only [List.all_eq_false]
    exact ⟨p0, hp0, by simp [hf0]⟩
  have hne : (pipes.filter (fun p => p.fails)).map (fun p => p.settleTime) ≠ [] := by
    simp only [ne_eq, List.map_eq_nil_iff, List.filter_eq_nil_iff]
    push_neg
    exact ⟨p0, hp0, by simp [hf0]⟩
  obtain ⟨t, ht⟩ : ∃ t, minTime? ((pipes.filter (fun p => p.fails)).map
      (fun p => p.settleTime)) = some t := by
    cases hmt : minTime? ((pipes.filter (fun p => p.fails)).map (fun p => p.settleTime)) with
    | none => exact absurd ((minTime?_eq_none_iff _).mp hmt) hne
    | some t => exact ⟨t, rfl⟩
  have hexec : ParallelStep.execute false pipes = (t, true) := by
    simp only [ParallelStep.execute, promiseAll, hall, Bool.false_eq_true, if_false,
      mapped_rejection_times, ht]
  obtain ⟨hmem, hle⟩ := minTime?_spec _ t ht
  obtain ⟨p, hpmem, hpt⟩ := List.mem_map.mp hmem
  have hpf : p.fails = true := by
    have := List.mem_filter.mp hpmem
    exact this.2
  refine ⟨by rw [hexec], p, (List.mem_filter.mp hpmem).1, hpf, ?_, ?_⟩
  · rw [hexec, hpt]
  · intro q hq hqf
    rw [hpt]
    exact hle q.settleTime (List.mem_map.mpr ⟨q, List.mem_filter.mpr ⟨hq, by simp [hqf]⟩, rfl⟩)

/-- Witness for C1 (amended): two failing pipes settling at times 4 and 2 —
the step rejects at time 2. -/
theorem parallelStep_rejects_at_first_failure_witness :
    (ParallelStep.execute false [⟨4, true⟩, ⟨2, true⟩]).2 = true ∧
    ∃ p ∈ ([⟨4, true⟩, ⟨2, true⟩] : List PipePromise), p.fails = true ∧
      (ParallelStep.execute false [⟨4, true⟩, ⟨2, true⟩]).1 = p.settleTime ∧
      ∀ q ∈ ([⟨4, true⟩, ⟨2, true⟩] : List PipePromise), q.fails = true →
        p.settleTime ≤ q.settleTime :=
  parallelStep_rejects_at_first_failure [⟨4, true⟩, ⟨2, true⟩]
    ⟨⟨4, true⟩, by simp, rfl⟩

/-- C4 counterexample: constructing a retry policy (and a retry-with-backoff
strategy) with `maxAttempts = 0` yields `maxAttempts = 1`, not the stated
default 3 — refuting the claim that every non-positive numeric parameter is
coerced to its stated default. -/
theorem retry_nonpositive_maxAttempts_coerced_to_one :
    (RetryPolicy.make 0 0 0 false).maxAttempts = 1 ∧
    (RetryPolicy.make 0 0 0 false).maxAttempts ≠ 3 ∧
    (RetryWithBackoffStrategy.make (-1) 0 0).maxAttempts = 1 ∧
    (RetryWithBackoffStrategy.make (-1) 0 0).maxAttempts ≠ 3 := by
  refine ⟨rfl, by decide, rfl, by decide⟩

/-- C4 (amended): at construction, a non-positive base delay is coerced to
its stated default 1000 ms and a non-positive max delay to its stated
default 60000 ms, for both the retry policy and the retry-with-backoff
strategy; a non-positive maxAttempts, however, is coerced to 1 (one
attempt), not to the default 3; positive values are kept unchanged. -/
theorem retry_constructor_coercion (m d md : Int) (b : Bool) :
    (m ≤ 0 → (RetryPolicy.make m d md b).maxAttempts = 1 ∧
      (RetryWithBackoffStrategy.make m d md).maxAttempts = 1) ∧
    (d ≤ 0 → (RetryPolicy.make m d md b).delay = 1000 ∧
      (RetryWithBackoffStrategy.make m d md).initialDelay = 1000) ∧
    (md ≤ 0 → (RetryPolicy.make m d md b).maxDelay = 60000 ∧
      (RetryWithBackoffStrategy.make m d md).maxDelay = 60000) ∧
    (0 < m → (RetryPolicy.make m d md b).maxAttempts = m ∧
      (RetryWithBackoffStrategy.make m d md).maxAttempts = m) ∧
    (0 < d → (RetryPolicy.make m d md b).delay = d ∧
      (RetryWithBackoffStrategy.make m d md).initialDelay = d) ∧
    (0 < md → (RetryPolicy.make m d md b).maxDelay = md ∧
      (RetryWithBackoffStrategy.make m d md).maxDelay = md) := by
  refine ⟨?_, ?_, ?_, ?_, ?_, ?_⟩ <;> intro h <;>
    constructor <;>
      simp [RetryPolicy.make, RetryWithBackoffStrategy.make] <;>
        omega

/-- Witness for C4 (amended): the coercions at `maxAttempts = -2`,
`delay = 0`, `maxDelay = -5`. -/
theorem retry_constructor_coercion_witness :
    (RetryPolicy.make (-2) 0 (-5) true).maxAttempts = 1 ∧
    (RetryPolicy.make (-2) 0 (-5) true).delay = 1000 ∧
    (RetryPolicy.make (-2) 0 (-5) true).maxDelay = 60000 :=
  ⟨((retry_constructor_coercion (-2) 0 (-5) true).1 (by decide)).1,
   ((retry_constructor_coercion (-2) 0 (-5) true).2.1 (by decide)).1,
   ((retry_constructor_coercion (-2) 0 (-5) true).2.2.1 (by decide)).1⟩

/-- C6: a retry policy constructed with `maxAttempts = 3` (any delay
configuration, flat or exponential) around a pipe that fails on every
invocation, with no retry predicate: `execute` invokes the pipe exactly 3
times, waits the two computed backoff delays (after the first and second
failures), records the exhaustion message with the final attempt number 3,
and re-throws the last error (the one from the third invocation). -/
theorem retryPolicy_three_attempts_exhaustion (d md : Int) (b : Bool)
    (errs : Nat → String) :
    RetryPolicy.execute (RetryPolicy.make 3 d md b) none (fun n => some (errs n)) =
      { invocations := 3,
        delays := [retryComputeDelay (RetryPolicy.make 3 d md b) 1,
                   retryComputeDelay (RetryPolicy.make 3 d md b) 2],
        recorded := [(pipeFailedAfterRetriesMessage 3 (errs 2), 3)],
        thrown := some (errs 2) } := by
  simp [RetryPolicy.execute, RetryPolicy.make, retryLoop]

/-- One `execute` call preserves the Open-state invariant: an Open breaker
carries a failure count at or above the threshold. -/
theorem cbExecute_preserves_open_inv (cfg : CircuitBreakerStrategy)
    (sh : Option (String → Bool)) (st : CBState) (now : Int) (res : Option String)
    (hinv : st.state = .Open → (cfg.failureThreshold : Int) ≤ st.failureCount) :
    (CircuitBreakerStrategy.execute cfg sh st now res).1.state = .Open →
      (cfg.failureThreshold : Int) ≤
        (CircuitBreakerStrategy.execute cfg sh st now res).1.failureCount := by
  unfold CircuitBreakerStrategy.execute
  cases hst : st.state <;> cases hlf : st.lastFailureTime <;>
    cases res <;>
      simp_all [cbInitial] <;>
        split_ifs <;>
          simp_all

/-- The Open-state invariant holds along every call sequence. -/
theorem cbRun_open_inv (cfg : CircuitBreakerStrategy) (sh : Option (String → Bool)) :
    ∀ (calls : List (Int × Option String)) (st : CBState),
    (st.state = .Open → (cfg.failureThreshold : Int) ≤ st.failureCount) →
    ((cbRun cfg sh st calls).1.state = .Open →
      (cfg.failureThreshold : Int) ≤ (cbRun cfg sh st calls).1.failureCount)
  | [], st, hinv => hinv
  | c :: cs, st, hinv => by
    simp only [cbRun]
    exact cbRun_open_inv cfg sh cs _ (cbExecute_preserves_open_inv cfg sh st c.1 c.2 hinv)

/-- C5 counterexample: with threshold 2, the call sequence
fail-succeed-fail leaves the breaker Open, although the two counted failures
are not consecutive (the consecutive qualifying-failure count at that point
is 1, below the threshold) — refuting the claim that Closed moves to Open
exactly when the consecutive qualifying-failure count reaches the threshold:
a success while Closed does not reset the code's counter. -/
theorem circuitBreaker_opens_on_nonconsecutive_failures :
    (cbRun (CircuitBreakerStrategy.make 2 1000) none cbInitial
      [(0, some "e1"), (1, none), (2, some "e2")]).1.state = CircuitState.Open ∧
    consecutiveQualifyingFailures [true, false, true] = 1 ∧
    (1 : Int) < (CircuitBreakerStrategy.make 2 1000).failureThreshold := by
  decide

/-- C5 (amended): the state machine over Closed/Open/HalfOpen, with the
failure counter cumulative since the last reset (a success while Closed does
not reset it, so the counted failures need not be consecutive): a counted
failure in Closed increments the counter and opens the breaker exactly when
the new count reaches the threshold; excluded errors bypass the counting and
propagate with the state untouched; while Open with the timeout not yet
elapsed since the last failure every call fails fast without invoking the
pipe; the first call after the timeout elapses is a real trial (lazy
HalfOpen) — its success resets the circuit to Closed with count 0, and its
counted failure re-opens the breaker (the carried-over count is at the
threshold in every reachable Open state, per the last conjunct). -/
theorem circuitBreaker_state_machine (cfg : CircuitBreakerStrategy)
    (sh : Option (String → Bool)) (st : CBState) (now t : Int) (e : String) :
    (st.state = .Closed →
      CircuitBreakerStrategy.execute cfg sh st now none = (st, .success)) ∧
    (st.state = .Closed → cbQualifies sh e = true →
      CircuitBreakerStrategy.execute cfg sh st now (some e) =
        ({ state := if (st.failureCount + 1 : Int) ≥ cfg.failureThreshold
              then .Open else .Closed,
           failureCount := st.failureCount + 1, lastFailureTime := some now },
         .thrownCounted e)) ∧
    (st.state = .Closed → cbQualifies sh e = false →
      CircuitBreakerStrategy.execute cfg sh st now (some e) = (st, .thrownExcluded e)) ∧
    (st.state = .Open → st.lastFailureTime = some t → now - t < cfg.timeout →
      CircuitBreakerStrategy.execute cfg sh st now (some e) = (st, .rejectedOpen) ∧
      CircuitBreakerStrategy.execute cfg sh st now none = (st, .rejectedOpen)) ∧
    (st.state = .Open → st.lastFailureTime = some t → cfg.timeout ≤ now - t →
      CircuitBreakerStrategy.execute cfg sh st now none = (cbInitial, .success)) ∧
    (st.state = .Open → st.lastFailureTime = some t → cfg.timeout ≤ now - t →
      cbQualifies sh e = true → (cfg.failureThreshold : Int) ≤ st.failureCount →
      CircuitBreakerStrategy.execute cfg sh st now (some e) =
        ({ state := .Open, failureCount := st.failureCount + 1,
           lastFailureTime := some now }, .thrownCounted e)) ∧
    (∀ calls, (cbRun cfg sh cbInitial calls).1.state = .Open →
      (cfg.failureThreshold : Int) ≤ (cbRun cfg sh cbInitial calls).1.failureCount) := by
  refine ⟨?_, ?_, ?_, ?_, ?_, ?_, ?_⟩
  · intro h
    simp [CircuitBreakerStrategy.execute, h]
  · intro h hq
    cases hlf : st.lastFailureTime <;>
      simp [CircuitBreakerStrategy.execute, h, hq, hlf]
  · intro h hq
    cases hlf : st.lastFailureTime <;>
      simp [CircuitBreakerStrategy.execute, h, hq, hlf]
  · intro h hlf hlt
    constructor <;> simp [CircuitBreakerStrategy.execute, h, hlf, hlt]
  · intro h hlf hle
    have : ¬ (now - t < cfg.timeout) := by omega
    simp [CircuitBreakerStrategy.execute, h, hlf, this]
  · intro h hlf hle hq hthr
    have h1 : ¬ (now - t < cfg.timeout) := by omega
    have h2 : (st.failureCount + 1 : Int) ≥ cfg.failureThreshold := by omega
    simp [CircuitBreakerStrategy.execute, h, hlf, h1, hq, h2]
  · intro calls
    exact cbRun_open_inv cfg sh calls cbInitial (by intro h; simp [cbInitial] at h)

/-- Witness for C5 (amended): threshold 2, timeout 1000 — a first counted
failure leaves the breaker Closed with count 1; an Open breaker (count 2,
last failure at time 0) rejects a call at time 10 without invoking the
pipe. -/
theorem circuitBreaker_state_machine_witness :
    CircuitBreakerStrategy.execute (CircuitBreakerStrategy.make 2 1000) none cbInitial 0
        (some "x") =
      ({ state := .Closed, failureCount := 1, lastFailureTime := some 0 },
        .thrownCounted "x") ∧
    CircuitBreakerStrategy.execute (CircuitBreakerStrategy.make 2 1000) none
        { state := .Open, failureCount := 2, lastFailureTime := some 0 } 10 (some "y") =
      ({ state := .Open, failureCount := 2, lastFailureTime := some 0 }, .rejectedOpen) := by
  constructor
  · have h := (circuitBreaker_state_machine (CircuitBreakerStrategy.make 2 1000) none
      cbInitial 0 0 "x").2.1 rfl rfl
    rw [h]
    decide
  · exact ((circuitBreaker_state_machine (CircuitBreakerStrategy.make 2 1000) none
      { state := .Open, failureCount := 2, lastFailureTime := some 0 } 10 0 "y").2.2.2.1
      rfl rfl (by decide)).1

/-- C8: the fallback policy's three outcomes — a should-fallback predicate
rejecting the primary error records it and re-throws it without invoking the
fallback pipe; an invoked fallback that also fails records the combined
message naming both failures and re-throws the fallback's (not the
primary's) error; an invoked fallback that succeeds ends the call with no
thrown error. -/
theorem fallbackPolicy_contract (f : String → Bool) (sf : Option (String → Bool))
    (e fe : String) :
    (f e = false →
      FallbackPolicy.execute (some f) (some e) (some fe) =
        { fallbackInvoked := false, errors := [e],
          pipelineErrors := [s!"Primary pipe failed but fallback not executed: {e}"],
          thrown := some e }) ∧
    ((sf = none ∨ (∃ g, sf = some g ∧ g e = true)) →
      FallbackPolicy.execute sf (some e) (some fe) =
        { fallbackInvoked := true, errors := [s!"Primary: {e}, Fallback: {fe}"],
          pipelineErrors :=
            [s!"Both primary and fallback pipes failed: Primary: {e}, Fallback: {fe}"],
          thrown := some fe }) ∧
    ((sf = none ∨ (∃ g, sf = some g ∧ g e = true)) →
      FallbackPolicy.execute sf (some e) none =
        { fallbackInvoked := true, errors := [], pipelineErrors := [], thrown := none }) := by
  refine ⟨?_, ?_, ?_⟩
  · intro h
    simp [FallbackPolicy.execute, h]
  · rintro (rfl | ⟨g, rfl, hg⟩)
    · simp [FallbackPolicy.execute]
    · simp [FallbackPolicy.execute, hg]
  · rintro (rfl | ⟨g, rfl, hg⟩)
    · simp [FallbackPolicy.execute]
    · simp [FallbackPolicy.execute, hg]

/-- Witness for C8: a rejecting predicate on primary error "p"; and, with no
predicate, the failing and the succeeding fallback around the same primary
failure. -/
theorem fallbackPolicy_contract_witness :
    FallbackPolicy.execute (some (fun _ => false)) (some "p") (some "f") =
      { fallbackInvoked := false, errors := ["p"],
        pipelineErrors := ["Primary pipe failed but fallback not executed: p"],
        thrown := some "p" } ∧
    FallbackPolicy.execute none (some "p") (some "f") =
      { fallbackInvoked := true, errors := ["Primary: p, Fallback: f"],
        pipelineErrors := ["Both primary and fallback pipes failed: Primary: p, Fallback: f"],
        thrown := some "f" } ∧
    FallbackPolicy.execute none (some "p") none =
      { fallbackInvoked := true, errors := [], pipelineErrors := [], thrown := none } := by
  refine ⟨?_, ?_, ?_⟩
  · exact (fallbackPolicy_contract (fun _ => false) none "p" "f").1 rfl
  · exact (fallbackPolicy_contract (fun _ => false) none "p" "f").2.1 (Or.inl rfl)
  · exact (fallbackPolicy_contract (fun _ => false) none "p" "f").2.2 (Or.inl rfl)

/-! ## Metrics lemmas (C10) -/

/-- `Map.set` makes its key present. -/
theorem mapHas_mapSet_self {α : Type} (m : List (String × α)) (k : String) (v : α) :
    mapHas (mapSet m k v) k = true := by
  by_cases h : mapHas m k = true
  · simp only [mapSet, h, if_true]
    induction m with
    | nil => simp [mapHas] at h
    | cons p ps ih =>
      cases hp : (p.1 == k) with
      | true =>
        have hpk : p.1 = k := by simpa using hp
        simp [mapHas, hpk]
      | false =>
        simp only [mapHas, List.any_cons, hp, Bool.false_or] at h
        have hrest := ih h
        simp only [mapHas, List.any_eq_true] at hrest ⊢
        simp only [List.map_cons, List.mem_cons]
        obtain ⟨q, hq1, hq2⟩ := hrest
        exact ⟨q, Or.inr hq1, hq2⟩
  · simp only [mapSet, h, if_false]
    simp [mapHas]

/-- `Map.set` keeps every already-present key present. -/
theorem mapHas_mapSet_mono {α : Type} (m : List (String × α)) (k k' : String) (v : α)
    (h : mapHas m k' = true) : mapHas (mapSet m k v) k' = true := by
  simp only [mapSet]
  split
  · simp only [mapHas, List.any_eq_true] at h ⊢
    obtain ⟨q, hq, hqk⟩ := h
    refine ⟨if (q.1 == k) = true then (k, v) else q, List.mem_map.mpr ⟨q, hq, rfl⟩, ?_⟩
    cases hqk2 : (q.1 == k)
    · simpa [hqk2] using hqk
    · have hqe : q.1 = k := by simpa using hqk2
      simp only [hqk2, if_true]
      have : q.1 == k' := by simpa using hqk
      rw [← hqe]
      exact this
  · simp only [mapHas, List.any_append] at h ⊢
    simp [mapHas] at h
    simp [mapHas, h]

/-- The per-step duration fold touches only `pipeDurations`. -/
theorem metricsFold_fields (l : List (String × Int)) :
    ∀ pm : PerformanceMetrics,
    (l.foldl (fun acc nd => if acc.isEnabled then
        { acc with pipeDurations := mapSet acc.pipeDurations nd.1 nd.2 } else acc)
      pm).isEnabled = pm.isEnabled ∧
    (l.foldl (fun acc nd => if acc.isEnabled then
        { acc with pipeDurations := mapSet acc.pipeDurations nd.1 nd.2 } else acc)
      pm).startTime = pm.startTime ∧
    (l.foldl (fun acc nd => if acc.isEnabled then
        { acc with pipeDurations := mapSet acc.pipeDurations nd.1 nd.2 } else acc)
      pm).endTime = pm.endTime ∧
    (l.foldl (fun acc nd => if acc.isEnabled then
        { acc with pipeDurations := mapSet acc.pipeDurations nd.1 nd.2 } else acc)
      pm).totalDurationMs = pm.totalDurationMs ∧
    (l.foldl (fun acc nd => if acc.isEnabled then
        { acc with pipeDurations := mapSet acc.pipeDurations nd.1 nd.2 } else acc)
      pm).memoryMetrics = pm.memoryMetrics ∧
    (l.foldl (fun acc nd => if acc.isEnabled then
        { acc with pipeDurations := mapSet acc.pipeDurations nd.1 nd.2 } else acc)
      pm).correlationId = pm.correlationId := by
  induction l with
  | nil => intro pm; simp
  | cons nd nds ih =>
    intro pm
    simp only [List.foldl_cons]
    cases h : pm.isEnabled
    · simp only [h, Bool.false_eq_true, if_false]
      simpa [h] using ih pm
    · simp only [h, if_true]
      have := ih { pm with pipeDurations := mapSet pm.pipeDurations nd.1 nd.2 }
      simpa [h] using this

/-- With collection disabled the per-step fold is the identity. -/
theorem metricsFold_disabled (l : List (String × Int)) :
    ∀ pm : PerformanceMetrics, pm.isEnabled = false →
    l.foldl (fun acc nd => if acc.isEnabled then
        { acc with pipeDurations := mapSet acc.pipeDurations nd.1 nd.2 } else acc) pm = pm := by
  induction l with
  | nil => intro pm _; rfl
  | cons nd nds ih =>
    intro pm h
    simp only [List.foldl_cons, h, Bool.false_eq_true, if_false]
    exact ih pm h

/-- The per-step fold never removes a recorded duration key. -/
theorem metricsFold_preserves_has (l : List (String × Int)) :
    ∀ (pm : PerformanceMetrics) (k : String), mapHas pm.pipeDurations k = true →
    mapHas (l.foldl (fun acc nd => if acc.isEnabled then
        { acc with pipeDurations := mapSet acc.pipeDurations nd.1 nd.2 } else acc)
      pm).pipeDurations k = true := by
  induction l with
  | nil => intro pm k h; exact h
  | cons nd nds ih =>
    intro pm k h
    simp only [List.foldl_cons]
    cases he : pm.isEnabled
    · simp only [he, Bool.false_eq_true, if_false]
      exact ih pm k h
    · simp only [he, if_true]
      exact ih _ k (mapHas_mapSet_mono _ _ _ _ h)

/-- With collection enabled the fold records every step name. -/
theorem metricsFold_has (l : List (String × Int)) :
    ∀ pm : PerformanceMetrics, pm.isEnabled = true →
    ∀ nd ∈ l, mapHas (l.foldl (fun acc nd => if acc.isEnabled then
        { acc with pipeDurations := mapSet acc.pipeDurations nd.1 nd.2 } else acc)
      pm).pipeDurations nd.1 = true := by
  induction l with
  | nil => intro pm _ nd h; simp at h
  | cons c cs ih =>
    intro pm he nd hmem
    simp only [List.foldl_cons, he, if_true]
    rcases List.mem_cons.mp hmem with rfl | hmem
    · exact metricsFold_preserves_has cs _ nd.1 (mapHas_mapSet_self _ _ _)
    · have := ih { pm with pipeDurations := mapSet pm.pipeDurations c.1 c.2 }
        (by simp [he]) nd hmem
      simpa [he] using this

/-- C10: when the context carries no performance-metrics record at the start
of run/flush, the builder creates one with collection enabled, so the start
timestamp, end timestamp, total duration, correlation id, both memory
samples and every per-step duration are recorded by default (without
`enablePerformanceMetrics` ever being called); and metrics are skipped only
when a record exists with `isEnabled` explicitly false, in which case the
record passes through execution completely untouched. -/
theorem builder_metrics_default_enabled (startTime endTime memI memF : Int)
    (steps : List (String × Int)) (gid : String) (pm : PerformanceMetrics) :
    ((executeInternalMetrics none startTime steps endTime memI memF gid).isEnabled = true ∧
     (executeInternalMetrics none startTime steps endTime memI memF gid).startTime =
       some startTime ∧
     (executeInternalMetrics none startTime steps endTime memI memF gid).endTime =
       some endTime ∧
     (executeInternalMetrics none startTime steps endTime memI memF gid).totalDurationMs =
       some (endTime - startTime) ∧
     (executeInternalMetrics none startTime steps endTime memI memF gid).correlationId =
       some gid ∧
     (executeInternalMetrics none startTime steps endTime memI memF gid).memoryMetrics =
       some { initialMemoryBytes := some memI, finalMemoryBytes := some memF } ∧
     (∀ nd ∈ steps,
       mapHas (executeInternalMetrics none startTime steps endTime memI memF
         gid).pipeDurations nd.1 = true)) ∧
    (pm.isEnabled = false →
      executeInternalMetrics (some pm) startTime steps endTime memI memF gid = pm) := by
  constructor
  · simp only [executeInternalMetrics, Option.getD_none, if_true]
    have hf := metricsFold_fields steps
      { isEnabled := true
        correlationId := some gid
        startTime := some startTime
        endTime := none
        totalDurationMs := none
        memoryMetrics := some { initialMemoryBytes := some memI, finalMemoryBytes := none }
        pipeDurations := [] }
    obtain ⟨he, hst, hen, htd, hmm, hci⟩ := hf
    refine ⟨?_, ?_, ?_, ?_, ?_, ?_, ?_⟩
    · simp [he]
    · simp [he, hst]
    · simp [he]
    · simp [he]
    · simp [he, hci]
    · simp [he, hmm]
    · intro nd hnd
      have := metricsFold_has steps
        { isEnabled := true
          correlationId := some gid
          startTime := some startTime
          endTime := none
          totalDurationMs := none
          memoryMetrics := some { initialMemoryBytes := some memI, finalMemoryBytes := none }
          pipeDurations := [] } rfl nd hnd
      simpa [he] using this
  · intro hdis
    simp only [executeInternalMetrics, hdis, Bool.false_eq_true, if_false,
      metricsFold_disabled steps pm hdis]

/-- Witness for C10: a pre-existing record with collection explicitly
disabled passes through one execution with nothing recorded. -/
theorem builder_metrics_default_enabled_witness :
    executeInternalMetrics (some ({} : PerformanceMetrics)) 0 [("A", 5)] 9 1 2 "cid" =
      ({} : PerformanceMetrics) :=
  (builder_metrics_default_enabled 0 9 1 2 [("A", 5)] "cid" {}).2 rfl
